import Mathlib

/-!
Shallow embedding of the ICLED STM32 driver (src/Core/Src/icled.c together
with src/Core/Inc/icled.h): the GRB pixel store, the waveform encoder that
bit-expands pixel bytes into PWM compare values, and the DMA transfer
sequencing, together with proofs of the specified properties.
-/

/-- Number of LEDs in the matrix (ICLED_LED_COUNT in icled.h). -/
def ICLED_LED_COUNT : Nat := 105

/-- Number of idle PWM slots for the latch gap (ICLED_RESET_SLOTS in icled.h). -/
def ICLED_RESET_SLOTS : Nat := 200

/-- Bits per LED, 8 bits for each GRB component (ICLED_BITS_PER_LED in icled.h). -/
def ICLED_BITS_PER_LED : Nat := 24

/-- Total number of data bits for all LEDs (ICLED_TIMING_BITS in icled.h). -/
def ICLED_TIMING_BITS : Nat := ICLED_LED_COUNT * ICLED_BITS_PER_LED

/-- Total PWM buffer size including reset padding (ICLED_BUFFER_SIZE in icled.h). -/
def ICLED_BUFFER_SIZE : Nat := ICLED_TIMING_BITS + ICLED_RESET_SLOTS

/-- PWM compare value for a logical 0 bit (ICLED_PWM_0 in icled.h). -/
def ICLED_PWM_0 : Nat := 13

/-- PWM compare value for a logical 1 bit (ICLED_PWM_1 in icled.h). -/
def ICLED_PWM_1 : Nat := 26

/-- The GRB pixel data store led_data: the value at (i, c) is channel byte c
of pixel i, with channel order G (0), R (1), B (2).  In the C source this is
the static array uint8_t led_data[ICLED_LED_COUNT][3]. -/
abbrev Store : Type := Nat → Nat → Nat

/-- ICLED_SetPixel: returns without effect when index >= ICLED_LED_COUNT;
otherwise stores g, r, b into channels 0, 1, 2 of pixel index (GRB order). -/
def ICLED_SetPixel (led_data : Store) (index r g b : Nat) : Store :=
  if index ≥ ICLED_LED_COUNT then led_data
  else fun i c =>
    if i = index then
      if c = 0 then g else if c = 1 then r else if c = 2 then b else led_data i c
    else led_data i c

/-- One channel byte expanded MSB first into 8 PWM slots, mirroring the
innermost loop of ICLED_Show: slot k holds ICLED_PWM_1 when bit (7 - k) of
val is set and ICLED_PWM_0 otherwise. -/
def encodeByte (val : Nat) : List Nat :=
  (List.range 8).map fun k => if val.testBit (7 - k) then ICLED_PWM_1 else ICLED_PWM_0

/-- The data slots produced by the nested loops of ICLED_Show: pixels in
index order, channel bytes in stored order G, R, B, bits MSB first. -/
def dataSlots (led_data : Store) : List Nat :=
  (List.range ICLED_LED_COUNT).flatMap fun i =>
    (List.range 3).flatMap fun c => encodeByte (led_data i c)

/-- The full slot sequence ICLED_Show deposits in pwm_buffer: the data
slots followed by ICLED_RESET_SLOTS slots holding 0. -/
def encodeBuffer (led_data : Store) : List Nat :=
  dataSlots led_data ++ List.replicate ICLED_RESET_SLOTS 0

/-- Sequential in-place writes pwm_buffer[pos++] = v, one per value, as in
the write loops of ICLED_Show; returns the buffer and the final position. -/
def writeSeq : List Nat → Nat → List Nat → List Nat × Nat
  | buf, pos, [] => (buf, pos)
  | buf, pos, v :: vs => writeSeq (buf.set pos v) (pos + 1) vs

/-- The encode phase of ICLED_Show on pwm_buffer: first the bit-expansion
loop over the data slots, then the reset-slot loop, threading pos. -/
def encodeInto (buf : List Nat) (led_data : Store) : List Nat × Nat :=
  let r1 := writeSeq buf 0 (dataSlots led_data)
  writeSeq r1.1 r1.2 (List.replicate ICLED_RESET_SLOTS 0)

/-- Hardware transfer calls issued by the driver (HAL_TIM_PWM_Stop_DMA and
HAL_TIM_PWM_Start_DMA on TIM1 channel 1); a start records the contents of
the buffer it points at and its length argument at the moment of the call. -/
inductive HWCall : Type where
  | stopDMA : HWCall
  | startDMA : List Nat → Nat → HWCall
  deriving DecidableEq

/-- The static state of the driver: the led_data array and pwm_buffer. -/
structure DriverState : Type where
  led_data : Store
  pwm_buffer : List Nat

/-- ICLED_Show: encode led_data into pwm_buffer in place, then issue a stop
followed by a start over the full buffer (pwm_buffer, ICLED_BUFFER_SIZE). -/
def ICLED_Show (s : DriverState) : DriverState × List HWCall :=
  let r := encodeInto s.pwm_buffer s.led_data
  (⟨s.led_data, r.1⟩, [HWCall.stopDMA, HWCall.startDMA r.1 ICLED_BUFFER_SIZE])

/-- The loop of ICLED_Clear: ICLED_SetPixel i 0 0 0 for each i below
ICLED_LED_COUNT, in increasing order. -/
def clearStore (led_data : Store) : Store :=
  (List.range ICLED_LED_COUNT).foldl (fun st i => ICLED_SetPixel st i 0 0 0) led_data

/-- ICLED_Clear: set every pixel to (0,0,0), then call ICLED_Show. -/
def ICLED_Clear (s : DriverState) : DriverState × List HWCall :=
  ICLED_Show ⟨clearStore s.led_data, s.pwm_buffer⟩

/-- ICLED_Init: ICLED_Clear, then one more start over the full buffer. -/
def ICLED_Init (s : DriverState) : DriverState × List HWCall :=
  let r := ICLED_Clear s
  (r.1, r.2 ++ [HWCall.startDMA r.1.pwm_buffer ICLED_BUFFER_SIZE])

/-- Modelled from the spec: decoding map on one slot for the round trip
property, a PWM_ONE slot reads back as bit 1 and any other slot as bit 0. -/
def slotBit (s : Nat) : Nat := if s = ICLED_PWM_1 then 1 else 0

/-- Modelled from the spec: decoder of the data portion of the timing
buffer, mapping each group of 8 slots back to one byte, MSB first. -/
def decodeSlots : List Nat → List Nat
  | s0 :: s1 :: s2 :: s3 :: s4 :: s5 :: s6 :: s7 :: rest =>
      (slotBit s0 * 128 + slotBit s1 * 64 + slotBit s2 * 32 + slotBit s3 * 16 +
       slotBit s4 * 8 + slotBit s5 * 4 + slotBit s6 * 2 + slotBit s7) :: decodeSlots rest
  | _ => []

/-- The stored byte sequence of the pixel store in LED index order with
channel order G, R, B: the sequence the decoder must reproduce. -/
def storedBytes (led_data : Store) : List Nat :=
  (List.range ICLED_LED_COUNT).flatMap fun i => [led_data i 0, led_data i 1, led_data i 2]

/-- Whether some stop call occurs strictly before the first start call in a
trace of hardware calls. -/
def stopBeforeFirstStart : List HWCall → Bool
  | [] => false
  | HWCall.stopDMA :: rest =>
      rest.any fun c => match c with | HWCall.startDMA _ _ => true | _ => false
  | HWCall.startDMA _ _ :: _ => false

/-- The all-zero pixel store, the zero-initialized led_data at startup. -/
def zeroStore : Store := fun _ _ => 0

/-- The zero-initialized startup state of the driver. -/
def initState : DriverState := ⟨zeroStore, List.replicate ICLED_BUFFER_SIZE 0⟩

example : encodeByte 1 = [13, 13, 13, 13, 13, 13, 13, 26] := by decide
example : decodeSlots (encodeByte 171) = [171] := by decide

/-! ### Lemmas about the sequential write loop -/

theorem writeSeq_snd (vs : List Nat) : ∀ (buf : List Nat) (pos : Nat),
    (writeSeq buf pos vs).2 = pos + vs.length := by
  induction vs with
  | nil => intro buf pos; simp [writeSeq]
  | cons v vs ih => intro buf pos; simp [writeSeq, ih]; omega

theorem writeSeq_append (vs1 vs2 : List Nat) : ∀ (buf : List Nat) (pos : Nat),
    writeSeq buf pos (vs1 ++ vs2) =
      writeSeq (writeSeq buf pos vs1).1 (writeSeq buf pos vs1).2 vs2 := by
  induction vs1 with
  | nil => intro buf pos; simp [writeSeq]
  | cons v vs ih => intro buf pos; simp [writeSeq, ih]

theorem writeSeq_cons_shift (vs : List Nat) : ∀ (x : Nat) (buf : List Nat) (pos : Nat),
    writeSeq (x :: buf) (pos + 1) vs =
      (x :: (writeSeq buf pos vs).1, (writeSeq buf pos vs).2 + 1) := by
  induction vs with
  | nil => intro x buf pos; simp [writeSeq]
  | cons v vs ih => intro x buf pos; simp [writeSeq, ih]

theorem writeSeq_fst (vs : List Nat) : ∀ (buf : List Nat),
    vs.length ≤ buf.length → (writeSeq buf 0 vs).1 = vs ++ buf.drop vs.length := by
  induction vs with
  | nil => intro buf h; simp [writeSeq]
  | cons v vs ih =>
    intro buf h
    match buf with
    | [] => simp at h
    | b :: rest =>
      have hs := writeSeq_cons_shift vs v rest 0
      simp only [Nat.zero_add] at hs
      have hrest : vs.length ≤ rest.length := by simpa using h
      simp [writeSeq, hs, ih rest hrest]

/-! ### Length and shape of the encoded buffer -/

theorem encodeByte_length (v : Nat) : (encodeByte v).length = 8 := by
  simp [encodeByte]

theorem length_flatMap_const {β : Type} (f : Nat → List β) (m : Nat)
    (hf : ∀ k, (f k).length = m) : ∀ n, ((List.range n).flatMap f).length = n * m := by
  intro n
  induction n with
  | zero => simp
  | succ k ih =>
    rw [List.range_succ, List.flatMap_append]
    simp [ih, hf, Nat.succ_mul]

theorem dataSlots_length (led_data : Store) :
    (dataSlots led_data).length = ICLED_TIMING_BITS := by
  have h1 : ∀ i, ((List.range 3).flatMap fun c => encodeByte (led_data i c)).length = 24 :=
    fun i => length_flatMap_const _ 8 (fun c => encodeByte_length _) 3
  have h2 := length_flatMap_const
    (fun i => (List.range 3).flatMap fun c => encodeByte (led_data i c)) 24 h1 ICLED_LED_COUNT
  simpa [dataSlots, ICLED_TIMING_BITS, ICLED_BITS_PER_LED] using h2

theorem encodeBuffer_length (led_data : Store) :
    (encodeBuffer led_data).length = ICLED_BUFFER_SIZE := by
  simp [encodeBuffer, dataSlots_length, ICLED_BUFFER_SIZE]

theorem encodeInto_eq (led_data : Store) (buf : List Nat)
    (h : buf.length = ICLED_BUFFER_SIZE) :
    encodeInto buf led_data = (encodeBuffer led_data, ICLED_BUFFER_SIZE) := by
  have hlen : (encodeBuffer led_data).length = ICLED_BUFFER_SIZE := encodeBuffer_length led_data
  have hle : (encodeBuffer led_data).length ≤ buf.length := by rw [hlen, h]
  have h1 : encodeInto buf led_data = writeSeq buf 0 (encodeBuffer led_data) := by
    rw [encodeBuffer, writeSeq_append]; rfl
  have hdrop : buf.drop (encodeBuffer led_data).length = [] :=
    List.drop_eq_nil_of_le (by rw [hlen, h])
  rw [h1, Prod.ext_iff]
  refine ⟨?_, ?_⟩
  · rw [writeSeq_fst _ _ hle, hdrop, List.append_nil]
  · rw [writeSeq_snd, hlen]; simp

theorem ICLED_Show_eq (s : DriverState) (h : s.pwm_buffer.length = ICLED_BUFFER_SIZE) :
    ICLED_Show s = (⟨s.led_data, encodeBuffer s.led_data⟩,
      [HWCall.stopDMA, HWCall.startDMA (encodeBuffer s.led_data) ICLED_BUFFER_SIZE]) := by
  simp [ICLED_Show, encodeInto_eq s.led_data s.pwm_buffer h]

/-! ### The clear loop -/

theorem setPixel_self_zero (d : Store) (i c : Nat) (hi : i < ICLED_LED_COUNT) (hc : c < 3) :
    ICLED_SetPixel d i 0 0 0 i c = 0 := by
  unfold ICLED_SetPixel
  have hni : ¬ i ≥ ICLED_LED_COUNT := by omega
  simp only [hni, if_false, if_pos rfl]
  rcases c with _ | _ | _ | c
  · simp
  · simp
  · simp
  · exact absurd hc (by omega)

theorem setPixel_zero_preserve (d : Store) (j i c : Nat) (hc : c < 3) (h : d i c = 0) :
    ICLED_SetPixel d j 0 0 0 i c = 0 := by
  unfold ICLED_SetPixel
  by_cases hj : j ≥ ICLED_LED_COUNT
  · simp [hj, h]
  · simp only [hj, if_false]
    by_cases hij : i = j
    · subst hij
      simp only [if_pos rfl]
      rcases c with _ | _ | _ | c
      · simp
      · simp
      · simp
      · exact absurd hc (by omega)
    · simp [hij, h]

theorem foldl_clear_preserve (l : List Nat) : ∀ (d : Store) (i c : Nat), c < 3 → d i c = 0 →
    (l.foldl (fun st j => ICLED_SetPixel st j 0 0 0) d) i c = 0 := by
  induction l with
  | nil => intro d i c _ h; simpa using h
  | cons j l ih =>
    intro d i c hc h
    exact ih _ i c hc (setPixel_zero_preserve d j i c hc h)

theorem foldl_clear_mem (l : List Nat) : ∀ (d : Store) (i c : Nat), i ∈ l →
    i < ICLED_LED_COUNT → c < 3 →
    (l.foldl (fun st j => ICLED_SetPixel st j 0 0 0) d) i c = 0 := by
  induction l with
  | nil => intro d i c h _ _; simp at h
  | cons j l ih =>
    intro d i c hmem hi hc
    rcases List.mem_cons.mp hmem with hj | hl
    · subst hj
      exact foldl_clear_preserve l _ i c hc (setPixel_self_zero d i c hi hc)
    · exact ih _ i c hl hi hc

theorem clearStore_zero (d : Store) (i c : Nat) (hi : i < ICLED_LED_COUNT) (hc : c < 3) :
    clearStore d i c = 0 :=
  foldl_clear_mem (List.range ICLED_LED_COUNT) d i c (List.mem_range.mpr hi) hi hc

theorem ICLED_Clear_eq (s : DriverState) (h : s.pwm_buffer.length = ICLED_BUFFER_SIZE) :
    ICLED_Clear s = (⟨clearStore s.led_data, encodeBuffer (clearStore s.led_data)⟩,
      [HWCall.stopDMA,
       HWCall.startDMA (encodeBuffer (clearStore s.led_data)) ICLED_BUFFER_SIZE]) := by
  unfold ICLED_Clear
  exact ICLED_Show_eq ⟨clearStore s.led_data, s.pwm_buffer⟩ h

theorem ICLED_Init_eq (s : DriverState) (h : s.pwm_buffer.length = ICLED_BUFFER_SIZE) :
    ICLED_Init s = (⟨clearStore s.led_data, encodeBuffer (clearStore s.led_data)⟩,
      [HWCall.stopDMA,
       HWCall.startDMA (encodeBuffer (clearStore s.led_data)) ICLED_BUFFER_SIZE,
       HWCall.startDMA (encodeBuffer (clearStore s.led_data)) ICLED_BUFFER_SIZE]) := by
  simp [ICLED_Init, ICLED_Clear_eq s h]

/-! ### Indexing into the encoded data slots -/

theorem getElem?_flatMap_range {β : Type} (f : Nat → List β) (m : Nat)
    (hf : ∀ k, (f k).length = m) : ∀ (n i j : Nat), i < n → j < m →
    ((List.range n).flatMap f)[i * m + j]? = (f i)[j]? := by
  intro n
  induction n with
  | zero => intro i j hi _; exact absurd hi (Nat.not_lt_zero i)
  | succ k ih =>
    intro i j hi hj
    rw [List.range_succ, List.flatMap_append]
    have hlen : ((List.range k).flatMap f).length = k * m := length_flatMap_const f m hf k
    by_cases hik : i < k
    · have h1 : (i + 1) * m ≤ k * m := Nat.mul_le_mul_right m hik
      have h2 : i * m + j < (i + 1) * m := by rw [Nat.succ_mul]; omega
      have hidx : i * m + j < ((List.range k).flatMap f).length := by rw [hlen]; omega
      rw [List.getElem?_append_left hidx]
      exact ih i j hik hj
    · have hik2 : i = k := by omega
      subst hik2
      have hge : ((List.range i).flatMap f).length ≤ i * m + j := by rw [hlen]; omega
      rw [List.getElem?_append_right hge, hlen]
      simp [Nat.add_sub_cancel_left]

theorem dataSlots_getElem (d : Store) (i c b : Nat) (hi : i < ICLED_LED_COUNT)
    (hc : c < 3) (hb : b < 8) :
    (dataSlots d)[i * 24 + (c * 8 + (7 - b))]? =
      some (if (d i c).testBit b then ICLED_PWM_1 else ICLED_PWM_0) := by
  have hinner : ∀ x, ((List.range 3).flatMap fun cc => encodeByte (d x cc)).length = 24 :=
    fun x => length_flatMap_const _ 8 (fun _ => encodeByte_length _) 3
  rw [dataSlots]
  rw [getElem?_flatMap_range _ 24 hinner ICLED_LED_COUNT i (c * 8 + (7 - b)) hi (by omega)]
  rw [getElem?_flatMap_range _ 8 (fun _ => encodeByte_length _) 3 c (7 - b) hc (by omega)]
  rw [encodeByte, List.getElem?_map, List.getElem?_range (by omega : 7 - b < 8)]
  simp [Nat.sub_sub_self (by omega : b ≤ 7)]

/-! ### Round trip of the byte encoding -/

theorem slotBit_encode (c : Prop) [Decidable c] :
    slotBit (if c then ICLED_PWM_1 else ICLED_PWM_0) = if c then 1 else 0 := by
  by_cases h : c <;> simp [h, slotBit, ICLED_PWM_1, ICLED_PWM_0]

set_option maxRecDepth 4000 in
theorem byteFromBits : ∀ v : Fin 256,
    (if Nat.testBit v.val 7 then 1 else 0) * 128 + (if Nat.testBit v.val 6 then 1 else 0) * 64 +
    (if Nat.testBit v.val 5 then 1 else 0) * 32 + (if Nat.testBit v.val 4 then 1 else 0) * 16 +
    (if Nat.testBit v.val 3 then 1 else 0) * 8 + (if Nat.testBit v.val 2 then 1 else 0) * 4 +
    (if Nat.testBit v.val 1 then 1 else 0) * 2 + (if Nat.testBit v.val 0 then 1 else 0) =
    v.val := by
  decide

theorem decode_encodeByte (v : Nat) (hv : v < 256) (rest : List Nat) :
    decodeSlots (encodeByte v ++ rest) = v :: decodeSlots rest := by
  have he : encodeByte v = [if v.testBit 7 then ICLED_PWM_1 else ICLED_PWM_0,
      if v.testBit 6 then ICLED_PWM_1 else ICLED_PWM_0,
      if v.testBit 5 then ICLED_PWM_1 else ICLED_PWM_0,
      if v.testBit 4 then ICLED_PWM_1 else ICLED_PWM_0,
      if v.testBit 3 then ICLED_PWM_1 else ICLED_PWM_0,
      if v.testBit 2 then ICLED_PWM_1 else ICLED_PWM_0,
      if v.testBit 1 then ICLED_PWM_1 else ICLED_PWM_0,
      if v.testBit 0 then ICLED_PWM_1 else ICLED_PWM_0] := rfl
  rw [he]
  simp only [List.cons_append, List.nil_append, decodeSlots, slotBit_encode]
  exact congrArg (fun w => w :: decodeSlots rest) (byteFromBits ⟨v, hv⟩)

theorem decode_flatMap (bytes : List Nat) (hb : ∀ v ∈ bytes, v < 256) :
    decodeSlots (bytes.flatMap encodeByte) = bytes := by
  induction bytes with
  | nil => simp [decodeSlots]
  | cons v bytes ih =>
    rw [List.flatMap_cons, decode_encodeByte v (hb v (by simp)) _]
    rw [ih (fun w hw => hb w (by simp [hw]))]

theorem dataSlots_eq_flatMap (d : Store) :
    dataSlots d = (storedBytes d).flatMap encodeByte := by
  rw [storedBytes, List.flatMap_assoc]
  rfl

/-! ### Driver state form of ICLED_SetPixel -/

/-- ICLED_SetPixel lifted to the driver state: the C function writes only
the led_data array and leaves pwm_buffer untouched. -/
def ICLED_SetPixelState (s : DriverState) (index r g b : Nat) : DriverState :=
  ⟨ICLED_SetPixel s.led_data index r g b, s.pwm_buffer⟩

/-! ### The claims -/

/-- C1: the encode step of show writes the data slots in LED index order; for
each pixel the channel bytes are emitted in order G, R, B; within each byte
bits go from 7 down to 0; slot i*24 + c*8 + (7-b) holds ICLED_PWM_1 exactly
when bit b of channel byte c of pixel i is set, and ICLED_PWM_0 otherwise. -/
theorem claim_C1 (led_data : Store) (i c b : Nat)
    (hi : i < ICLED_LED_COUNT) (hc : c < 3) (hb : b < 8) :
    (encodeBuffer led_data)[i * 24 + c * 8 + (7 - b)]? =
      some (if (led_data i c).testBit b then ICLED_PWM_1 else ICLED_PWM_0) := by
  have hLC : ICLED_LED_COUNT = 105 := rfl
  have hTB : ICLED_TIMING_BITS = 2520 := rfl
  have hi105 : i < 105 := hLC ▸ hi
  have hidx : i * 24 + c * 8 + (7 - b) < (dataSlots led_data).length := by
    rw [dataSlots_length, hTB]; omega
  rw [encodeBuffer, List.getElem?_append_left hidx]
  have hassoc : i * 24 + c * 8 + (7 - b) = i * 24 + (c * 8 + (7 - b)) := by omega
  rw [hassoc]
  exact dataSlots_getElem led_data i c b hi hc hb

/-- Witness for C1: a concrete store holding byte 129 everywhere; slot 0
(pixel 0, G byte, bit 7) holds ICLED_PWM_1 since bit 7 of 129 is set. -/
theorem claim_C1_witness :
    (encodeBuffer (fun _ _ => 129))[0 * 24 + 0 * 8 + (7 - 7)]? =
      some (if (129 : Nat).testBit 7 then ICLED_PWM_1 else ICLED_PWM_0) :=
  claim_C1 (fun _ _ => 129) 0 0 7 (by decide) (by decide) (by decide)

/-- C2: in every call to show the encode completes before any hardware call
is issued, the stop precedes the start, the start covers the full buffer with
length ICLED_BUFFER_SIZE, and no stop follows the start: the trace is exactly
stop then start, and the start carries the fully encoded buffer, which is
also the pwm_buffer contents when the calls are issued. -/
theorem claim_C2 (s : DriverState) (h : s.pwm_buffer.length = ICLED_BUFFER_SIZE) :
    (ICLED_Show s).2 =
      [HWCall.stopDMA, HWCall.startDMA (encodeBuffer s.led_data) ICLED_BUFFER_SIZE] ∧
    (ICLED_Show s).1.pwm_buffer = encodeBuffer s.led_data := by
  rw [ICLED_Show_eq s h]
  exact ⟨rfl, rfl⟩

/-- Witness for C2 at the zero-initialized startup state. -/
theorem claim_C2_witness :
    (ICLED_Show initState).2 =
      [HWCall.stopDMA,
       HWCall.startDMA (encodeBuffer initState.led_data) ICLED_BUFFER_SIZE] ∧
    (ICLED_Show initState).1.pwm_buffer = encodeBuffer initState.led_data :=
  claim_C2 initState (by simp [initState])

/-- C3 counterexample: at the zero-initialized startup state, the trace of
hardware calls produced by ICLED_Init contains a stop strictly before its
first start, because ICLED_Init calls ICLED_Clear, which calls ICLED_Show,
which issues HAL_TIM_PWM_Stop_DMA before its start; so the claim that no
stop is issued before the very first transfer start of init is false. -/
theorem claim_C3_counterexample :
    stopBeforeFirstStart (ICLED_Init initState).2 = true := by
  rw [ICLED_Init_eq initState (by simp [initState])]
  rfl

/-- C3 amended: init first clears the pixel store (invoking the encode+show
path exactly once, so every pixel reads back 0) and then issues one more
start over the full buffer; the trace of hardware calls produced by init is
stop, start, start — the single stop issued by the inner show precedes the
first start, rather than no stop preceding it. -/
theorem claim_C3 (s : DriverState) (h : s.pwm_buffer.length = ICLED_BUFFER_SIZE) :
    (ICLED_Init s).2 =
      [HWCall.stopDMA,
       HWCall.startDMA (encodeBuffer (clearStore s.led_data)) ICLED_BUFFER_SIZE,
       HWCall.startDMA (encodeBuffer (clearStore s.led_data)) ICLED_BUFFER_SIZE] ∧
    (∀ i c, i < ICLED_LED_COUNT → c < 3 → (ICLED_Init s).1.led_data i c = 0) := by
  rw [ICLED_Init_eq s h]
  exact ⟨rfl, fun i c hi hc => clearStore_zero s.led_data i c hi hc⟩

/-- Witness for the amended C3 at the zero-initialized startup state. -/
theorem claim_C3_witness :
    (ICLED_Init initState).2 =
      [HWCall.stopDMA,
       HWCall.startDMA (encodeBuffer (clearStore initState.led_data)) ICLED_BUFFER_SIZE,
       HWCall.startDMA (encodeBuffer (clearStore initState.led_data)) ICLED_BUFFER_SIZE] ∧
    (∀ i c, i < ICLED_LED_COUNT → c < 3 → (ICLED_Init initState).1.led_data i c = 0) :=
  claim_C3 initState (by simp [initState])

/-- C4: for every index at or above ICLED_LED_COUNT (up to the largest
uint16 value) and all channel values, ICLED_SetPixel returns without effect:
the store is unchanged and a subsequent encode is identical. -/
theorem claim_C4 (led_data : Store) (index r g b : Nat)
    (h1 : ICLED_LED_COUNT ≤ index) (h2 : index ≤ 65535) :
    ICLED_SetPixel led_data index r g b = led_data ∧
    encodeBuffer (ICLED_SetPixel led_data index r g b) = encodeBuffer led_data := by
  have hx : ICLED_SetPixel led_data index r g b = led_data := by
    unfold ICLED_SetPixel
    exact if_pos h1
  exact ⟨hx, by rw [hx]⟩

/-- Witness for C4 at index ICLED_LED_COUNT = 105 with white channel values. -/
theorem claim_C4_witness :
    ICLED_SetPixel zeroStore 105 255 255 255 = zeroStore ∧
    encodeBuffer (ICLED_SetPixel zeroStore 105 255 255 255) = encodeBuffer zeroStore :=
  claim_C4 zeroStore 105 255 255 255 (by decide) (by decide)

/-- C5: decoding the data portion of the timing buffer produced by encode
(each group of 8 slots back to one byte, ICLED_PWM_1 slot to bit 1, other
slots to bit 0, MSB first) reproduces exactly the stored G, R, B byte triples
in LED index order; the byte bound reflects the uint8_t cells of led_data. -/
theorem claim_C5 (led_data : Store) (hb : ∀ i c, led_data i c < 256) :
    decodeSlots ((encodeBuffer led_data).take ICLED_TIMING_BITS) = storedBytes led_data := by
  have htake : (encodeBuffer led_data).take ICLED_TIMING_BITS = dataSlots led_data := by
    rw [encodeBuffer]
    exact List.take_left' (dataSlots_length led_data)
  rw [htake, dataSlots_eq_flatMap]
  apply decode_flatMap
  intro v hv
  simp only [storedBytes, List.mem_flatMap, List.mem_range, List.mem_cons,
    List.not_mem_nil, or_false] at hv
  obtain ⟨i, hi, hvv⟩ := hv
  rcases hvv with h | h | h <;> (subst h; exact hb i _)

/-- Witness for C5 at the all-zero store. -/
theorem claim_C5_witness :
    decodeSlots ((encodeBuffer zeroStore).take ICLED_TIMING_BITS) = storedBytes zeroStore :=
  claim_C5 zeroStore (fun _ _ => by norm_num [zeroStore])

/-- C6: the encode step writes exactly ICLED_LED_COUNT * 24 +
ICLED_RESET_SLOTS slots: starting from any buffer of length
ICLED_BUFFER_SIZE, the final write position equals ICLED_BUFFER_SIZE and the
resulting buffer is the full encode regardless of the prior contents, so
every slot is written and none past the end. -/
theorem claim_C6 (led_data : Store) (buf : List Nat)
    (h : buf.length = ICLED_BUFFER_SIZE) :
    encodeInto buf led_data = (encodeBuffer led_data, ICLED_BUFFER_SIZE) ∧
    (encodeBuffer led_data).length = ICLED_BUFFER_SIZE ∧
    ICLED_BUFFER_SIZE = ICLED_LED_COUNT * 24 + ICLED_RESET_SLOTS :=
  ⟨encodeInto_eq led_data buf h, encodeBuffer_length led_data, rfl⟩

/-- Witness for C6 starting from a stale buffer filled with the value 7. -/
theorem claim_C6_witness :
    encodeInto (List.replicate ICLED_BUFFER_SIZE 7) zeroStore =
      (encodeBuffer zeroStore, ICLED_BUFFER_SIZE) ∧
    (encodeBuffer zeroStore).length = ICLED_BUFFER_SIZE ∧
    ICLED_BUFFER_SIZE = ICLED_LED_COUNT * 24 + ICLED_RESET_SLOTS :=
  claim_C6 zeroStore (List.replicate ICLED_BUFFER_SIZE 7) (by simp)

/-- C7: after encode the final ICLED_RESET_SLOTS entries of the timing
buffer, positions ICLED_TIMING_BITS up to ICLED_BUFFER_SIZE - 1, all hold 0,
regardless of the pixel values. -/
theorem claim_C7 (led_data : Store) (k : Nat)
    (h1 : ICLED_TIMING_BITS ≤ k) (h2 : k < ICLED_BUFFER_SIZE) :
    (encodeBuffer led_data)[k]? = some 0 := by
  have hge : (dataSlots led_data).length ≤ k := by rw [dataSlots_length]; exact h1
  rw [encodeBuffer, List.getElem?_append_right hge, dataSlots_length]
  have hTB : ICLED_TIMING_BITS = 2520 := rfl
  have hBS : ICLED_BUFFER_SIZE = 2720 := rfl
  have hRS : ICLED_RESET_SLOTS = 200 := rfl
  exact List.getElem?_replicate_of_lt (by omega)

/-- Witness for C7 at reset position 2600 with a nonzero store. -/
theorem claim_C7_witness :
    (encodeBuffer (fun _ _ => 255))[2600]? = some 0 :=
  claim_C7 (fun _ _ => 255) 2600 (by decide) (by decide)

/-- C8: for every in-range index and all channel values, ICLED_SetPixel
overwrites the stored triple with the channels reordered to (G, R, B):
channel 0 reads back g, channel 1 reads back r, channel 2 reads back b, so
the logical (r, g, b) triple is recovered from channels (1, 0, 2). -/
theorem claim_C8 (led_data : Store) (i r g b : Nat) (hi : i < ICLED_LED_COUNT) :
    ICLED_SetPixel led_data i r g b i 0 = g ∧
    ICLED_SetPixel led_data i r g b i 1 = r ∧
    ICLED_SetPixel led_data i r g b i 2 = b := by
  unfold ICLED_SetPixel
  have hni : ¬ i ≥ ICLED_LED_COUNT := by omega
  simp [hni]

/-- Witness for C8 at index 0 with channels r = 1, g = 2, b = 3. -/
theorem claim_C8_witness :
    ICLED_SetPixel zeroStore 0 1 2 3 0 0 = 2 ∧
    ICLED_SetPixel zeroStore 0 1 2 3 0 1 = 1 ∧
    ICLED_SetPixel zeroStore 0 1 2 3 0 2 = 3 :=
  claim_C8 zeroStore 0 1 2 3 (by decide)

/-- C9: ICLED_Clear sets every one of the ICLED_LED_COUNT pixels to (0,0,0)
and then immediately triggers a show, issuing the stop and the full-buffer
start; afterwards every pixel of the store reads back as 0. -/
theorem claim_C9 (s : DriverState) (h : s.pwm_buffer.length = ICLED_BUFFER_SIZE) :
    (∀ i c, i < ICLED_LED_COUNT → c < 3 → (ICLED_Clear s).1.led_data i c = 0) ∧
    (ICLED_Clear s).2 =
      [HWCall.stopDMA,
       HWCall.startDMA (encodeBuffer (clearStore s.led_data)) ICLED_BUFFER_SIZE] := by
  rw [ICLED_Clear_eq s h]
  exact ⟨fun i c hi hc => clearStore_zero s.led_data i c hi hc, rfl⟩

/-- Witness for C9 starting from a state whose pixels all hold 9. -/
theorem claim_C9_witness :
    (∀ i c, i < ICLED_LED_COUNT → c < 3 →
      (ICLED_Clear ⟨fun _ _ => 9, List.replicate ICLED_BUFFER_SIZE 0⟩).1.led_data i c = 0) ∧
    (ICLED_Clear ⟨fun _ _ => 9, List.replicate ICLED_BUFFER_SIZE 0⟩).2 =
      [HWCall.stopDMA,
       HWCall.startDMA (encodeBuffer (clearStore (fun _ _ => 9))) ICLED_BUFFER_SIZE] :=
  claim_C9 ⟨fun _ _ => 9, List.replicate ICLED_BUFFER_SIZE 0⟩ (by simp)

/-- C10: an in-range ICLED_SetPixel modifies only the store entry at its
index, leaving every other entry and the whole timing buffer unchanged, and
ICLED_Show never modifies the pixel store. -/
theorem claim_C10 (s : DriverState) (index r g b : Nat) (hi : index < ICLED_LED_COUNT) :
    (∀ j c, j ≠ index →
      (ICLED_SetPixelState s index r g b).led_data j c = s.led_data j c) ∧
    (ICLED_SetPixelState s index r g b).pwm_buffer = s.pwm_buffer ∧
    (ICLED_Show s).1.led_data = s.led_data := by
  refine ⟨?_, rfl, by simp only [ICLED_Show]⟩
  intro j c hj
  simp only [ICLED_SetPixelState]
  unfold ICLED_SetPixel
  have hni : ¬ index ≥ ICLED_LED_COUNT := by omega
  simp [hni, hj]

/-- Witness for C10 at the startup state, writing pixel 0. -/
theorem claim_C10_witness :
    (∀ j c, j ≠ 0 →
      (ICLED_SetPixelState initState 0 1 2 3).led_data j c = initState.led_data j c) ∧
    (ICLED_SetPixelState initState 0 1 2 3).pwm_buffer = initState.pwm_buffer ∧
    (ICLED_Show initState).1.led_data = initState.led_data :=
  claim_C10 initState 0 1 2 3 (by decide)
